import Mathlib

/-!
Verification of the qb_rankings merge-and-normalize pipeline.

Shallow embedding of the identity normalizers, source cleaners, merge
engine and multi-season aggregation of the repository, together with
theorems settling the specification claims.

Conventions of the embedding:
- Python strings that are compared by order or manipulated character by
  character are modeled as lists of characters (PyStr); strings only
  compared for equality are modeled as Lean String.
- pandas DataFrames are modeled as lists of row structures carrying the
  columns relevant to each claim; metric columns that no claim inspects
  are elided, with the attached source row standing for the populated
  metric columns.
- Python float values arising here (win counts, salary figures) are
  exact half-integers or decimal numerals, so they are modeled as
  rationals; the modeled arithmetic is exact, as the IEEE arithmetic on
  these values is.
- Fallible Python code (exceptions) is modeled with Except; the error
  string names the Python exception raised.
-/

/-- Python str modeled as a list of characters. -/
abbrev PyStr := List Char

/-- Numeric value of a list of decimal digit characters, most significant first. -/
def natOfDigits (l : PyStr) : ℕ :=
  l.foldl (fun a c => 10 * a + (c.toNat - 48)) 0

/-- Python float(s) for an unsigned decimal numeral: digits with an optional
single decimal point. Exponent, infinity, nan and whitespace forms never occur
in the record-string and salary domain and are modeled as parse failure. -/
def pyFloatUnsigned? (s : PyStr) : Option ℚ :=
  match s.splitOn '.' with
  | [i] => if i ≠ [] ∧ i.all Char.isDigit then some ((natOfDigits i : ℕ) : ℚ) else none
  | [i, f] =>
    if (i ≠ [] ∨ f ≠ []) ∧ i.all Char.isDigit ∧ f.all Char.isDigit then
      some ((natOfDigits i : ℚ) + (natOfDigits f : ℚ) / (10 : ℚ) ^ f.length)
    else none
  | _ => none

/-- Python float(s) with an optional leading sign; none models ValueError. -/
def pyFloat? (s : PyStr) : Option ℚ :=
  match s with
  | '-' :: t => (pyFloatUnsigned? t).map (fun q => -q)
  | '+' :: t => pyFloatUnsigned? t
  | _ => pyFloatUnsigned? s

namespace Notebook

/-- Embeds calc_qb_wins of notebooks/qbrank.py (lines 180-219).
starts is the gs value (numeric games started), qb_record is the W-L-T
string with none modeling NaN, season selects the schedule length.
Returns ok none for the NaN early return, ok (some wins) on success, and
error for the ValueError, IndexError and AssertionError exits. -/
def calc_qb_wins (starts : ℚ) (qb_record : Option PyStr) (season : Int) :
    Except String (Option ℚ) :=
  if starts = 0 ∨ qb_record = none then .ok none
  else
    match qb_record with
    | none => .ok none
    | some r =>
      match (r.splitOn '-').mapM pyFloat? with
      | none => .error "ValueError"
      | some wlt =>
        if wlt.length ≤ 2 then .error "IndexError"
        else
          if 1 ≤ (wlt.getD 0 0 + wlt.getD 2 0 * (1 / 2)) +
                  (wlt.getD 1 0 + wlt.getD 2 0 * (1 / 2)) ∧
             (wlt.getD 0 0 + wlt.getD 2 0 * (1 / 2)) +
                  (wlt.getD 1 0 + wlt.getD 2 0 * (1 / 2)) ≤
               (if season ≤ 2020 then (16 : ℚ) else 17) then
            .ok (some (wlt.getD 0 0 + wlt.getD 2 0 * (1 / 2)))
          else .error "AssertionError"

/-- Schedule length used by the record validation: 16 games through season
2020, 17 thereafter. -/
def schedule_games (season : Int) : ℚ := if season ≤ 2020 then 16 else 17

/-- Reconstructed wins plus losses of a parsed W-L-T component list, as
calc_qb_wins computes it. -/
def record_total (wlt : List ℚ) : ℚ :=
  (wlt.getD 0 0 + wlt.getD 2 0 * (1 / 2)) + (wlt.getD 1 0 + wlt.getD 2 0 * (1 / 2))

/-- Claim-side condition on a record string: whenever its components all parse
as numbers, either fewer than three components are present or the
reconstructed win plus loss total is outside the valid games range. -/
def record_bad (r : PyStr) (season : Int) : Prop :=
  ∀ wlt : List ℚ, (r.splitOn '-').mapM pyFloat? = some wlt →
    wlt.length < 3 ∨
      ¬(1 ≤ record_total wlt ∧ record_total wlt ≤ schedule_games season)

end Notebook

/-- C10: in the notebook variant, games_started equal to 0 or a missing (NaN)
record string makes calc_qb_wins return a missing value (none) instead of
raising, so non-starting quarterbacks pass through without aborting. -/
theorem calc_qb_wins_missing_passthrough (starts : ℚ) (qb_record : Option PyStr)
    (season : Int) (h : starts = 0 ∨ qb_record = none) :
    Notebook.calc_qb_wins starts qb_record season = .ok none := by
  unfold Notebook.calc_qb_wins
  rw [if_pos h]

/-- Witness for C10 at both trigger conditions: zero starts with a present
record, and nonzero starts with a missing record. -/
theorem calc_qb_wins_missing_passthrough_witness :
    Notebook.calc_qb_wins 0 (some ("9-3-0").data) 2020 = .ok none ∧
      Notebook.calc_qb_wins 12 none 2022 = .ok none :=
  ⟨calc_qb_wins_missing_passthrough 0 (some ("9-3-0").data) 2020 (Or.inl rfl),
   calc_qb_wins_missing_passthrough 12 none 2022 (Or.inr rfl)⟩

/-- Reduction of calc_qb_wins past the NaN guard, for a present record and
nonzero starts. -/
theorem calc_qb_wins_some_eq (starts : ℚ) (r : PyStr) (season : Int)
    (h : starts ≠ 0) :
    Notebook.calc_qb_wins starts (some r) season =
      match (r.splitOn '-').mapM pyFloat? with
      | none => .error "ValueError"
      | some wlt =>
        if wlt.length ≤ 2 then .error "IndexError"
        else
          if 1 ≤ (wlt.getD 0 0 + wlt.getD 2 0 * (1 / 2)) +
                  (wlt.getD 1 0 + wlt.getD 2 0 * (1 / 2)) ∧
             (wlt.getD 0 0 + wlt.getD 2 0 * (1 / 2)) +
                  (wlt.getD 1 0 + wlt.getD 2 0 * (1 / 2)) ≤
               (if season ≤ 2020 then (16 : ℚ) else 17) then
            .ok (some (wlt.getD 0 0 + wlt.getD 2 0 * (1 / 2)))
          else .error "AssertionError" := by
  unfold Notebook.calc_qb_wins
  rw [if_neg (by simp [h])]

/-- C3 counterexample: the claim asserts that every record with a wrong
component count raises, and that any record whose total is out of range
raises; but the four-component record 9-3-0-9 returns wins 9 with no error
(only the first three components are read), and a games_started of 0 makes
even the out-of-range record 99-0-0 return a missing value, not an error. -/
theorem calc_qb_wins_claim_counterexample :
    Notebook.calc_qb_wins 12 (some ("9-3-0-9").data) 2020 = .ok (some 9) ∧
      (("9-3-0-9").data.splitOn '-').length = 4 ∧
      Notebook.calc_qb_wins 0 (some ("99-0-0").data) 2020 = .ok none := by
  refine ⟨?_, by decide, ?_⟩
  · rw [calc_qb_wins_some_eq 12 _ 2020 (by norm_num)]
    have hp : ((("9-3-0-9").data.splitOn '-').mapM pyFloat?) =
        some [(9 : ℚ), 3, 0, 9] := by decide
    rw [hp]
    simp only [List.length_cons, List.length_nil, List.getD_cons_zero,
      List.getD_cons_succ]
    rw [if_neg (by norm_num), if_pos (by norm_num)]
    norm_num
  · unfold Notebook.calc_qb_wins
    rw [if_pos (Or.inl rfl)]

/-- C3 amended: with games_started 12 the record 9-3-0 yields wins 9 in every
season; and for nonzero games_started, a present record whose numeric
components number fewer than three, or whose reconstructed win plus loss
total falls outside the valid games range for the season (16 through 2020,
17 thereafter), makes calc_qb_wins raise instead of returning a value. -/
theorem calc_qb_wins_record_validation :
    (∀ season : Int,
        Notebook.calc_qb_wins 12 (some ("9-3-0").data) season = .ok (some 9)) ∧
      ∀ (starts : ℚ) (r : PyStr) (season : Int), starts ≠ 0 →
        Notebook.record_bad r season →
        ∃ e, Notebook.calc_qb_wins starts (some r) season = .error e := by
  constructor
  · intro season
    rw [calc_qb_wins_some_eq 12 _ season (by norm_num)]
    have hp : ((("9-3-0").data.splitOn '-').mapM pyFloat?) =
        some [(9 : ℚ), 3, 0] := by decide
    rw [hp]
    simp only [List.length_cons, List.length_nil, List.getD_cons_zero,
      List.getD_cons_succ]
    rw [if_neg (by norm_num), if_pos (by refine ⟨by norm_num, ?_⟩ ; split <;> norm_num)]
    norm_num
  · intro starts r season hs hbad
    rw [calc_qb_wins_some_eq starts r season hs]
    cases hp : (r.splitOn '-').mapM pyFloat? with
    | none => exact ⟨"ValueError", rfl⟩
    | some wlt =>
      by_cases hl : wlt.length ≤ 2
      · exact ⟨"IndexError", if_pos hl⟩
      · rcases hbad wlt hp with hshort | hrange
        · omega
        · exact ⟨"AssertionError", (if_neg hl).trans (if_neg fun hc => hrange hc)⟩

/-- Witness for C3 amended at starts 1, record 99-0-0, season 2020: total 99
is outside the 16-game range, so an error is raised. -/
theorem calc_qb_wins_record_validation_witness :
    ∃ e, Notebook.calc_qb_wins 1 (some ("99-0-0").data) 2020 = .error e := by
  refine calc_qb_wins_record_validation.2 1 _ 2020 (by norm_num) ?_
  intro wlt hp
  have h2 : ((("99-0-0").data.splitOn '-').mapM pyFloat?) =
      some [(99 : ℚ), 0, 0] := by decide
  rw [h2] at hp
  right
  rintro ⟨h1, hle⟩
  rw [← Option.some_inj.mp hp] at hle
  norm_num [Notebook.record_total, Notebook.schedule_games, List.getD_cons_zero,
    List.getD_cons_succ] at hle

namespace QbEtl

/-- Python str.isupper over the ASCII domain of these names: at least one
cased character and no lowercase character. -/
def isupperPy (s : PyStr) : Bool :=
  s.any (fun c => c.isUpper || c.isLower) && s.all (fun c => !c.isLower)

/-- Embeds fix_player_name of src/qb_etl.py (lines 105-129): split on the
space character; a first token containing a period, or consisting of exactly
two characters with isupper true, has its periods removed and is otherwise
kept; any other first token is replaced by its first character (IndexError,
modeled as error, when it is empty); the tokens are then joined with no
delimiter. -/
def fix_player_name (full_name : PyStr) : Except String PyStr :=
  let first_last := full_name.splitOn ' '
  let f := first_last.headD []
  if f.contains '.' || (f.length == 2 && isupperPy f) then
    .ok (((f.filter (fun c => c != '.')) :: first_last.tail).flatten)
  else if f = [] then .error "IndexError"
  else .ok ((f.take 1 :: first_last.tail).flatten)

/-- Amended-claim given-name rule: a token containing a period keeps its
characters minus the periods, a two-character isupper token is kept whole,
and any other token is reduced to its leading character. -/
def given_name_key (f : PyStr) : PyStr :=
  if f.contains '.' || (f.length == 2 && isupperPy f) then f.filter (fun c => c != '.')
  else f.take 1

end QbEtl

namespace Preprocess

/-- Embeds fix_player_name of src/data/preprocess.py (lines 62-83): split on
the space character, replace the first token by its first character
(IndexError, modeled as error, when it is empty), join with no delimiter. -/
def fix_player_name (full_name : PyStr) : Except String PyStr :=
  let first_last := full_name.splitOn ' '
  let f := first_last.headD []
  if f = [] then .error "IndexError"
  else .ok ((f.take 1 :: first_last.tail).flatten)

end Preprocess

/-- A list with no occurrence of the separator splits into itself alone. -/
theorem splitOn_eq_single {α : Type} [DecidableEq α] (x : α) (l : List α)
    (h : x ∉ l) : l.splitOn x = [l] := by
  have h1 : List.intercalate [x] [l] = l := by simp [List.intercalate]
  calc l.splitOn x = (List.intercalate [x] [l]).splitOn x := by rw [h1]
    _ = [l] := List.splitOn_intercalate [l] x (by simpa using h) (by simp)

/-- Token-level evaluation of the qb_etl fix_player_name on an input
assembled from a first token and at least one further token. -/
theorem fix_player_name_intercalate (first : PyStr) (rest : List PyStr)
    (hsf : ' ' ∉ first) (hsr : ∀ t ∈ rest, ' ' ∉ t) :
    QbEtl.fix_player_name (List.intercalate [' '] (first :: rest)) =
      if first.contains '.' || (first.length == 2 && QbEtl.isupperPy first) then
        .ok ((first.filter (fun c => c != '.')) ++ rest.flatten)
      else if first = [] then .error "IndexError"
      else .ok (first.take 1 ++ rest.flatten) := by
  have hsplit : (List.intercalate [' '] (first :: rest)).splitOn ' ' = first :: rest := by
    refine List.splitOn_intercalate (first :: rest) ' ' ?_ (by simp)
    intro l hl
    rcases List.mem_cons.mp hl with h | h
    · rw [h]; exact hsf
    · exact hsr l h
  simp only [QbEtl.fix_player_name, hsplit, List.headD_cons, List.tail_cons]
  by_cases hc : (first.contains '.' || (first.length == 2 && QbEtl.isupperPy first)) = true
  · rw [if_pos hc, if_pos hc, List.flatten_cons]
  · rw [if_neg hc, if_neg hc]
    by_cases hf : first = []
    · rw [if_pos hf, if_pos hf]
    · rw [if_neg hf, if_neg hf, List.flatten_cons]

/-- Removing periods by filter is the identity on a period-free token. -/
theorem filter_ne_dot_of_not_mem (l : PyStr) (h : '.' ∉ l) :
    l.filter (fun c => c != '.') = l := by
  apply List.filter_eq_self.mpr
  intro c hc
  simp only [bne_iff_ne, ne_eq, decide_eq_true_eq]
  rintro rfl
  exact h hc

/-- Evaluation of the qb_etl fix_player_name on a single nonempty space-free
period-free token: kept whole when it is a two-character isupper token,
reduced to its first character otherwise. -/
theorem fix_player_name_single_token (k : PyStr) (hks : ' ' ∉ k) (hk0 : k ≠ [])
    (hkd : '.' ∉ k) :
    QbEtl.fix_player_name k =
      .ok (if k.length = 2 ∧ QbEtl.isupperPy k = true then k else k.take 1) := by
  have hsplit : k.splitOn ' ' = [k] := splitOn_eq_single ' ' k hks
  have hcont : k.contains '.' = false := by simpa using hkd
  simp only [QbEtl.fix_player_name, hsplit, List.headD_cons, List.tail_cons, hcont,
    Bool.false_or]
  by_cases hb : (k.length == 2 && QbEtl.isupperPy k) = true
  · have hp2 : k.length = 2 ∧ QbEtl.isupperPy k = true := by
      rw [Bool.and_eq_true, beq_iff_eq] at hb
      exact hb
    rw [if_pos hb, if_pos hp2, filter_ne_dot_of_not_mem k hkd]
    simp
  · have hp2 : ¬(k.length = 2 ∧ QbEtl.isupperPy k = true) := by
      intro hc
      apply hb
      rw [Bool.and_eq_true, beq_iff_eq]
      exact hc
    rw [if_neg hb, if_neg hk0, if_neg hp2]
    simp

/-- C4 amended: for every well-formed name of two or more space-separated
tokens (first token nonempty), fix_player_name splits on whitespace, maps the
given-name token through the given-name rule — periods removed for a token
containing periods, a two-character uppercase token kept whole, any other
token reduced to its leading character — keeps the family tokens verbatim,
and concatenates with no delimiter. -/
theorem fix_player_name_given_name_rule (first : PyStr) (rest : List PyStr)
    (hf : first ≠ []) (hr : rest ≠ [])
    (hsf : ' ' ∉ first) (hsr : ∀ t ∈ rest, ' ' ∉ t) :
    QbEtl.fix_player_name (List.intercalate [' '] (first :: rest)) =
      .ok (QbEtl.given_name_key first ++ rest.flatten) := by
  rw [fix_player_name_intercalate first rest hsf hsr]
  unfold QbEtl.given_name_key
  by_cases hc : (first.contains '.' || (first.length == 2 && QbEtl.isupperPy first)) = true
  · rw [if_pos hc, if_pos hc]
  · rw [if_neg hc, if_neg hf, if_neg hc]

/-- C4 counterexample: the unpunctuated two-letter given name AJ is kept
whole by the code, while the claim reduces any unpunctuated given name to its
single leading character (ASmith). -/
theorem fix_player_name_claim_counterexample :
    QbEtl.fix_player_name ("AJ Smith").data = .ok ("AJSmith").data ∧
      ("AJSmith").data ≠ ("ASmith").data :=
  ⟨rfl, by decide⟩

/-- Witness for C4 amended on the punctuated name J.J. Watt: the periods are
removed and the family name kept, giving JJWatt. -/
theorem fix_player_name_given_name_rule_witness :
    QbEtl.fix_player_name (List.intercalate [' '] [("J.J.").data, ("Watt").data]) =
        .ok (QbEtl.given_name_key ("J.J.").data ++ [("Watt").data].flatten) ∧
      QbEtl.given_name_key ("J.J.").data ++ [("Watt").data].flatten = ("JJWatt").data :=
  ⟨fix_player_name_given_name_rule ("J.J.").data [("Watt").data] (by decide) (by decide)
      (by decide) (by decide),
   by decide⟩

/-- Success domain of the qb_etl fix_player_name. -/
theorem qbetl_fix_player_name_ok_iff (s : PyStr) :
    (∃ r, QbEtl.fix_player_name s = .ok r) ↔ (s.splitOn ' ').headD [] ≠ [] := by
  simp only [QbEtl.fix_player_name]
  by_cases hf : (s.splitOn ' ').headD [] = []
  · rw [hf]
    simp
  · by_cases hc : (((s.splitOn ' ').headD []).contains '.' ||
        (((s.splitOn ' ').headD []).length == 2 &&
          QbEtl.isupperPy ((s.splitOn ' ').headD []))) = true
    · rw [if_pos hc]
      simpa using hf
    · rw [if_neg hc, if_neg hf]
      simpa using hf

/-- Success domain of the preprocess fix_player_name. -/
theorem preprocess_fix_player_name_ok_iff (s : PyStr) :
    (∃ r, Preprocess.fix_player_name s = .ok r) ↔ (s.splitOn ' ').headD [] ≠ [] := by
  simp only [Preprocess.fix_player_name]
  by_cases hf : (s.splitOn ' ').headD [] = []
  · rw [if_pos hf]
    simpa using hf
  · rw [if_neg hf]
    simpa using hf

/-- C5 amended: fix_player_name succeeds exactly when the first
space-separated token is nonempty; well-formed two-token input always
succeeds, but input with fewer than two tokens does not raise — a nonempty
single token succeeds as well, and the only failure (an IndexError, there is
no MalformedNameError in the code) is an empty first token. Both the qb_etl
and the preprocess variant agree on this domain. -/
theorem fix_player_name_success_domain (s : PyStr) :
    ((∃ r, QbEtl.fix_player_name s = .ok r) ↔ (s.splitOn ' ').headD [] ≠ []) ∧
      ((∃ r, Preprocess.fix_player_name s = .ok r) ↔ (s.splitOn ' ').headD [] ≠ []) :=
  ⟨qbetl_fix_player_name_ok_iff s, preprocess_fix_player_name_ok_iff s⟩

/-- C5 counterexample: the single-token input Smith has fewer than two
space-separated tokens, yet neither variant fails: both return the key S. -/
theorem fix_player_name_single_token_counterexample :
    QbEtl.fix_player_name ("Smith").data = .ok ("S").data ∧
      Preprocess.fix_player_name ("Smith").data = .ok ("S").data :=
  ⟨rfl, rfl⟩

/-- C6 corrected: fix_player_name is not idempotent. For a period-free
well-formed multi-token name whose key is k, re-applying fix_player_name
returns k unchanged only when k is a two-character uppercase pair, and
otherwise collapses k to its first character. -/
theorem fix_player_name_reapply (first : PyStr) (rest : List PyStr) (k : PyStr)
    (hf : first ≠ []) (hsf : ' ' ∉ first) (hdf : '.' ∉ first)
    (hsr : ∀ t ∈ rest, ' ' ∉ t) (hdr : ∀ t ∈ rest, '.' ∉ t)
    (hk : QbEtl.fix_player_name (List.intercalate [' '] (first :: rest)) = .ok k) :
    QbEtl.fix_player_name k =
      .ok (if k.length = 2 ∧ QbEtl.isupperPy k = true then k else k.take 1) := by
  rw [fix_player_name_intercalate first rest hsf hsr] at hk
  have hcont : first.contains '.' = false := by simpa using hdf
  rw [hcont, Bool.false_or] at hk
  by_cases hb : (first.length == 2 && QbEtl.isupperPy first) = true
  · rw [if_pos hb, filter_ne_dot_of_not_mem first hdf] at hk
    obtain rfl := Except.ok.inj hk
    refine fix_player_name_single_token _ ?_ ?_ ?_
    · intro hmem
      rcases List.mem_append.mp hmem with h | h
      · exact hsf h
      · rcases List.mem_flatten.mp h with ⟨t, ht, hc2⟩
        exact hsr t ht hc2
    · intro h0
      exact hf (List.append_eq_nil.mp h0).1
    · intro hmem
      rcases List.mem_append.mp hmem with h | h
      · exact hdf h
      · rcases List.mem_flatten.mp h with ⟨t, ht, hc2⟩
        exact hdr t ht hc2
  · rw [if_neg hb, if_neg hf] at hk
    obtain rfl := Except.ok.inj hk
    refine fix_player_name_single_token _ ?_ ?_ ?_
    · intro hmem
      rcases List.mem_append.mp hmem with h | h
      · exact hsf (List.mem_of_mem_take h)
      · rcases List.mem_flatten.mp h with ⟨t, ht, hc2⟩
        exact hsr t ht hc2
    · intro h0
      have h1 := (List.append_eq_nil.mp h0).1
      rw [List.take_eq_nil_iff] at h1
      rcases h1 with h | h
      · exact one_ne_zero h
      · exact hf h
    · intro hmem
      rcases List.mem_append.mp hmem with h | h
      · exact hdf (List.mem_of_mem_take h)
      · rcases List.mem_flatten.mp h with ⟨t, ht, hc2⟩
        exact hdr t ht hc2

/-- C6 counterexample: normalizing Tom Brady gives TBrady, but re-applying
the normalizer gives T, not TBrady, so the function is not idempotent. -/
theorem fix_player_name_not_idempotent :
    QbEtl.fix_player_name ("Tom Brady").data = .ok ("TBrady").data ∧
      QbEtl.fix_player_name ("TBrady").data = .ok ("T").data ∧
      ("T").data ≠ ("TBrady").data :=
  ⟨rfl, rfl, by decide⟩

/-- Witness for C6 corrected at the name Tom Brady with key TBrady. -/
theorem fix_player_name_reapply_witness :
    QbEtl.fix_player_name ("TBrady").data =
      .ok (if ("TBrady").data.length = 2 ∧ QbEtl.isupperPy ("TBrady").data = true
        then ("TBrady").data else ("TBrady").data.take 1) :=
  fix_player_name_reapply ("Tom").data [("Brady").data] ("TBrady").data
    (by decide) (by decide) (by decide) (by decide) (by decide) rfl

namespace QbEtl

/-- Embeds fix_team_name of src/qb_etl.py (lines 71-102): fixed remap of
relocated or inconsistently abbreviated team codes; anything else passes
through unchanged. -/
def fix_team_name (team_orig : String) : String :=
  if team_orig = "STL" then "LAR"
  else if team_orig = "SDG" ∨ team_orig = "SD" then "LAC"
  else if team_orig = "GNB" then "GB"
  else if team_orig = "TAM" then "TB"
  else if team_orig = "KAN" then "KC"
  else if team_orig = "NOR" then "NO"
  else if team_orig = "NWE" then "NE"
  else if team_orig = "SFO" then "SF"
  else if team_orig = "JAC" then "JAX"
  else team_orig

end QbEtl

namespace Preprocess

/-- Embeds fix_team_name of src/data/preprocess.py (lines 43-59): only the
relocated codes STL and SDG are remapped; SD is not in this remap table. -/
def fix_team_name (team_orig : String) : String :=
  if team_orig = "STL" then "LAR"
  else if team_orig = "SDG" then "LAC"
  else team_orig

end Preprocess

/-- C7 counterexample: in the cited preprocess variant, SDG maps to LAC but
SD passes through unchanged, so SDG and SD do not map to the same current
team code there. -/
theorem fix_team_name_sd_counterexample :
    Preprocess.fix_team_name "SD" = "SD" ∧
      Preprocess.fix_team_name "SDG" = "LAC" ∧
      ("SD" : String) ≠ "LAC" :=
  ⟨rfl, rfl, by decide⟩

/-- C7 amended: in the qb_etl variant of the normalizer, SDG and SD map to
the same current code LAC, the already-canonical NE is returned unchanged,
and every input outside the fixed remap table passes through unchanged with
no error. -/
theorem fix_team_name_canonical :
    (QbEtl.fix_team_name "SDG" = "LAC" ∧ QbEtl.fix_team_name "SD" = "LAC") ∧
      QbEtl.fix_team_name "NE" = "NE" ∧
      ∀ t : String,
        t ∉ (["STL", "SDG", "SD", "GNB", "TAM", "KAN", "NOR", "NWE", "SFO",
              "JAC"] : List String) →
        QbEtl.fix_team_name t = t := by
  refine ⟨⟨rfl, rfl⟩, rfl, ?_⟩
  intro t ht
  simp only [List.mem_cons, List.not_mem_nil, or_false, not_or] at ht
  obtain ⟨h1, h2, h3, h4, h5, h6, h7, h8, h9, h10⟩ := ht
  unfold QbEtl.fix_team_name
  rw [if_neg h1, if_neg (not_or.mpr ⟨h2, h3⟩), if_neg h4, if_neg h5, if_neg h6,
    if_neg h7, if_neg h8, if_neg h9, if_neg h10]

/-- Witness for C7 amended: an unmapped code passes through unchanged. -/
theorem fix_team_name_canonical_witness :
    QbEtl.fix_team_name "ZZZ" = "ZZZ" :=
  fix_team_name_canonical.2.2 "ZZZ" (by decide)

/-- One row of the Over The Cap cleaned stage right before deduplication
(qb_etl.py line 375 and preprocess.py line 307): the player and team join
keys plus the salary figure, which is still a string at this point (the
dollar signs and commas are removed at line 371, but pd.to_numeric only runs
at line 382, after the groupby). -/
structure OtcRow where
  player : String
  team : String
  salary_cap_value : PyStr
deriving DecidableEq, Repr

namespace QbEtl

/-- Maximum of a list of Python strings under the Python string order, which
is lexicographic by code point, as pandas Series.max computes it on an
object-dtype column. The empty-string start value is below every value. -/
def seriesMaxStr (vals : List PyStr) : PyStr :=
  vals.foldl (fun acc v => if acc < v then v else acc) []

/-- Embeds the deduplication step of extract_season_otc (src/qb_etl.py lines
377-379; identically clean_otc of preprocess.py lines 309-310, whose extra
year key is constant within a season): group rows by (player, team) and keep
the maximum salary_cap_value of each group. Groups are listed in first
occurrence order; pandas emits them in sorted key order, which no claim
depends on. -/
def extract_season_otc_dedupe (rows : List OtcRow) : List OtcRow :=
  ((rows.map (fun r => (r.player, r.team))).eraseDups).map
    (fun k =>
      { player := k.1, team := k.2,
        salary_cap_value :=
          seriesMaxStr ((rows.filter
            (fun r => r.player == k.1 && r.team == k.2)).map
              (fun r => r.salary_cap_value)) })

end QbEtl

/-- C8: the cleaner does resolve duplicate (player, team) keys to exactly one
row per key, deterministically, but the retained value is the lexicographic
maximum of the salary strings rather than the numeric maximum salary,
because the groupby max runs before numeric conversion: of the duplicate
values 750000 and 12500000 the kept string is 750000, although numerically
750000 < 12500000. -/
theorem extract_season_otc_string_max :
    QbEtl.extract_season_otc_dedupe
        [⟨"TBrady", "TB", ("750000").data⟩, ⟨"TBrady", "TB", ("12500000").data⟩] =
      [⟨"TBrady", "TB", ("750000").data⟩] ∧
      pyFloat? ("750000").data = some 750000 ∧
      pyFloat? ("12500000").data = some 12500000 ∧
      (750000 : ℚ) < 12500000 := by
  refine ⟨by decide, by decide, by decide, by norm_num⟩

/-- One row of a cleaned QB-season table as the merge engine sees it: the
join key columns player, team, year. Metric columns are elided, since a left
join keeps the key columns of the left row and only the row multiset matters
to the row-count and ordering claims. -/
structure Row where
  player : PyStr
  team : PyStr
  year : Int
deriving DecidableEq, Repr

namespace Preprocess

/-- Join key comparison on (player, team, year), the merge_all join key. -/
def row_key_match (a b : Row) : Bool :=
  a.player == b.player && a.team == b.team && a.year == b.year

/-- Key-level model of pd.merge(merged, d, how=left, on=[player, team, year])
(preprocess.py lines 374-376): each left row appears once per matching right
row, or once unmatched with null source columns. -/
def left_join_rows (l r : List Row) : List Row :=
  l.flatMap (fun a =>
    let m := (r.filter (row_key_match a)).length
    if m = 0 then [a] else List.replicate m a)

/-- The merge loop of merge_all (preprocess.py lines 360-387): left join each
subsequent table in order, raising AssertionError as soon as a join step
changes the row count. -/
def merge_steps (m : List Row) : List (List Row) → Except String (List Row)
  | [] => .ok m
  | d :: ds =>
    let m2 := left_join_rows m d
    if m2.length = m.length then merge_steps m2 ds
    else .error "AssertionError"

/-- Success condition of the merge loop: every join step preserves the
running row count. -/
def merge_steps_ok (m : List Row) : List (List Row) → Bool
  | [] => true
  | d :: ds =>
    let m2 := left_join_rows m d
    (m2.length == m.length) && merge_steps_ok m2 ds

/-- Sort key of the final sort_values([player, year, team]) of merge_all:
lexicographic on player, then year, then team, with strings compared by code
point as Python compares them. -/
def row_sort_key (a : Row) : Lex (PyStr × Lex (Int × PyStr)) :=
  toLex (a.player, toLex (a.year, a.team))

/-- Row order by the merge_all sort key. -/
def row_le (a b : Row) : Prop := row_sort_key a ≤ row_sort_key b

instance : DecidableRel row_le := fun a b =>
  inferInstanceAs (Decidable (row_sort_key a ≤ row_sort_key b))

instance : IsTotal Row row_le := ⟨fun a b => le_total (row_sort_key a) (row_sort_key b)⟩

instance : IsTrans Row row_le := ⟨fun _ _ _ h1 h2 => le_trans h1 h2⟩

/-- Embeds merge_all of src/data/preprocess.py (lines 347-433) at row level:
the first table is the base population, each further table is left joined
under the fatal row-count check, the column reorder leaves rows unchanged,
and sort_values([player, year, team]) sorts the rows (modeled by a sort on
the same key; no claim depends on tie order). The empty input models the
IndexError of the df_list[0] access. -/
def merge_all (df_list : List (List Row)) : Except String (List Row) :=
  match df_list with
  | [] => .error "IndexError"
  | base :: rest => (merge_steps base rest).map (List.insertionSort row_le)

end Preprocess

/-- A successful merge loop preserves the row count of its starting table. -/
theorem merge_steps_ok_length :
    ∀ (ds : List (List Row)) (m t : List Row),
      Preprocess.merge_steps m ds = .ok t → t.length = m.length := by
  intro ds
  induction ds with
  | nil =>
    intro m t h
    simp only [Preprocess.merge_steps] at h
    rw [← Except.ok.inj h]
  | cons d ds ih =>
    intro m t h
    simp only [Preprocess.merge_steps] at h
    by_cases hlen : (Preprocess.left_join_rows m d).length = m.length
    · rw [if_pos hlen] at h
      rw [ih _ _ h, hlen]
    · rw [if_neg hlen] at h
      simp at h

/-- A merge loop with a count-changing step returns an error. -/
theorem merge_steps_fails :
    ∀ (ds : List (List Row)) (m : List Row),
      Preprocess.merge_steps_ok m ds = false →
      ∃ e, Preprocess.merge_steps m ds = .error e := by
  intro ds
  induction ds with
  | nil =>
    intro m h
    simp [Preprocess.merge_steps_ok] at h
  | cons d ds ih =>
    intro m h
    simp only [Preprocess.merge_steps_ok] at h
    by_cases hlen : (Preprocess.left_join_rows m d).length = m.length
    · have h2 : Preprocess.merge_steps_ok (Preprocess.left_join_rows m d) ds = false := by
        rw [Bool.and_eq_false_iff] at h
        rcases h with h | h
        · exact absurd (beq_iff_eq.mpr hlen) (by rw [h]; exact Bool.false_ne_true)
        · exact h
      obtain ⟨e, he⟩ := ih _ h2
      exact ⟨e, by simp only [Preprocess.merge_steps, if_pos hlen]; exact he⟩
    · exact ⟨"AssertionError", by simp only [Preprocess.merge_steps, if_neg hlen]⟩

/-- C1: the merge engine left joins each subsequent table onto the running
base; whenever it returns a table at all, every join step preserved the row
count and the returned table has exactly len(base) rows; and whenever some
join step changes the running row count, it raises instead of returning a
table. -/
theorem merge_all_row_count (base : List Row) (rest : List (List Row)) :
    (∀ t, Preprocess.merge_all (base :: rest) = .ok t → t.length = base.length) ∧
      (Preprocess.merge_steps_ok base rest = false →
        ∃ e, Preprocess.merge_all (base :: rest) = .error e) := by
  constructor
  · intro t h
    simp only [Preprocess.merge_all] at h
    cases hm : Preprocess.merge_steps base rest with
    | error e =>
      rw [hm] at h
      simp [Except.map] at h
    | ok t0 =>
      rw [hm] at h
      simp only [Except.map] at h
      rw [← Except.ok.inj h,
        (List.perm_insertionSort Preprocess.row_le t0).length_eq]
      exact merge_steps_ok_length rest base t0 hm
  · intro hbad
    obtain ⟨e, he⟩ := merge_steps_fails rest base hbad
    exact ⟨e, by simp only [Preprocess.merge_all, he, Except.map]⟩

/-- Witness for C1: a duplicate-free join keeps the single base row, and a
fanning-out join (two right rows with the base key) makes merge_all raise. -/
theorem merge_all_row_count_witness :
    (([⟨("ASmith").data, ("NE").data, 2020⟩] : List Row).length =
        ([⟨("ASmith").data, ("NE").data, 2020⟩] : List Row).length) ∧
      ∃ e, Preprocess.merge_all
          [[⟨("ASmith").data, ("NE").data, 2020⟩],
           [⟨("ASmith").data, ("NE").data, 2020⟩,
            ⟨("ASmith").data, ("NE").data, 2020⟩]] = .error e :=
  ⟨(merge_all_row_count [⟨("ASmith").data, ("NE").data, 2020⟩]
      [[⟨("ASmith").data, ("NE").data, 2020⟩]]).1
      [⟨("ASmith").data, ("NE").data, 2020⟩] rfl,
   (merge_all_row_count [⟨("ASmith").data, ("NE").data, 2020⟩]
      [[⟨("ASmith").data, ("NE").data, 2020⟩,
        ⟨("ASmith").data, ("NE").data, 2020⟩]]).2 (by decide)⟩

/-- C9 amended: whenever the preprocess merge engine returns a table, its
rows are sorted by (player, year, team). -/
theorem merge_all_sorted (df_list : List (List Row)) (t : List Row)
    (h : Preprocess.merge_all df_list = .ok t) :
    List.Sorted Preprocess.row_le t := by
  cases df_list with
  | nil => simp [Preprocess.merge_all] at h
  | cons base rest =>
    simp only [Preprocess.merge_all] at h
    cases hm : Preprocess.merge_steps base rest with
    | error e =>
      rw [hm] at h
      simp [Except.map] at h
    | ok t0 =>
      rw [hm] at h
      simp only [Except.map] at h
      rw [← Except.ok.inj h]
      exact List.sorted_insertionSort Preprocess.row_le t0

/-- Witness for C9 amended on a one-table merge. -/
theorem merge_all_sorted_witness :
    List.Sorted Preprocess.row_le [⟨("JSmith").data, ("NE").data, 2020⟩] :=
  merge_all_sorted [[⟨("JSmith").data, ("NE").data, 2020⟩]]
    [⟨("JSmith").data, ("NE").data, 2020⟩] rfl

namespace QbEtl

/-- Row-level model of get_all_seasons of src/qb_etl.py (lines 445-509) as a
function of the per-season merged tables: standardize_season and
scale_for_display copy the frame and only add columns, the column reorder
selects columns, and pd.concat(ignore_index) concatenates, so the aggregate
rows are the season tables in year order with no re-sort. -/
def get_all_seasons_rows (season_tables : List (List Row)) : List Row :=
  season_tables.flatten

end QbEtl

/-- C9 counterexample: with the 2019 season table holding player B and the
2020 table holding player A, the qb_etl aggregate keeps concatenation order
(B before A), which is not ordered by (person_key, season, team_code). -/
theorem get_all_seasons_unsorted_counterexample :
    QbEtl.get_all_seasons_rows
        [[⟨("B").data, ("TB").data, 2019⟩], [⟨("A").data, ("NE").data, 2020⟩]] =
      [⟨("B").data, ("TB").data, 2019⟩, ⟨("A").data, ("NE").data, 2020⟩] ∧
      ¬ List.Sorted Preprocess.row_le
        [⟨("B").data, ("TB").data, 2019⟩, ⟨("A").data, ("NE").data, 2020⟩] := by
  refine ⟨rfl, ?_⟩
  intro hs
  have h := (List.sorted_cons.mp hs).1 ⟨("A").data, ("NE").data, 2020⟩ (by simp)
  exact absurd h (by decide)

namespace Notebook

/-- One row of the cleaned PFR table as the module-level merge of
notebooks/qbrank.py consumes it: the full player name, the derived last
name, the mascot derived from the team code, the team code and the season.
Metric columns are elided. -/
structure PfrRow where
  player : String
  last_name : String
  mascot : String
  tm : String
  season : Int
deriving DecidableEq, Repr

/-- One row of the salary-cap table (prep_cap_data output): the full player
name (renamed player_name), the derived last name, the team label (mascot
form) and the season. The salary metric columns are elided; an attached
SalaryRow in a merge result stands for the populated salary columns. -/
structure SalaryRow where
  player_name : String
  last_name : String
  team : String
  season : Int
deriving DecidableEq, Repr

/-- pd.merge(left, right, how=left) with join predicate p: every left row
appears paired with each matching right row, or once with none (null right
columns) when nothing matches. -/
def left_join {α β : Type} (l : List α) (r : List β) (p : α → β → Bool) :
    List (α × Option β) :=
  l.flatMap (fun a =>
    match r.filter (p a) with
    | [] => [(a, none)]
    | ms => ms.map (fun b2 => (a, some b2)))

/-- First-pass join key (qbrank.py lines 473-479): left (last_name, mascot,
season) against right (last_name, team, season). -/
def match1 (a : PfrRow) (b : SalaryRow) : Bool :=
  a.last_name == b.last_name && a.mascot == b.team && a.season == b.season

/-- Fallback join key (qbrank.py lines 495-500): left (player, last_name,
season) against right (player_name, last_name, season) — the team dimension
is dropped. -/
def match2 (a : PfrRow) (b : SalaryRow) : Bool :=
  a.player == b.player_name && a.last_name == b.last_name && a.season == b.season

/-- merged_df1 (qbrank.py line 473): primary left join with indicator; a
none right component models the left_only indicator value. -/
def merged_df1 (pfr : List PfrRow) (sal : List SalaryRow) :
    List (PfrRow × Option SalaryRow) :=
  left_join pfr sal match1

/-- left_only (qbrank.py line 485): the (player, season, tm) key triples of
the base rows that failed to match in the first pass. -/
def left_only (pfr : List PfrRow) (sal : List SalaryRow) :
    List (String × Int × String) :=
  ((merged_df1 pfr sal).filter (fun x => x.2.isNone)).map
    (fun x => (x.1.player, x.1.season, x.1.tm))

/-- pfr_subset (qbrank.py line 488): inner join of the base with left_only on
(player, season, tm); with the one_to_one validation of that merge, this is
the base rows whose key triple failed to match in the first pass. -/
def pfr_subset (pfr : List PfrRow) (sal : List SalaryRow) : List PfrRow :=
  pfr.filter (fun a => (left_only pfr sal).contains (a.player, a.season, a.tm))

/-- merged_df2 (qbrank.py line 495): second-pass left join of the unmatched
base rows under the relaxed key. -/
def merged_df2 (pfr : List PfrRow) (sal : List SalaryRow) :
    List (PfrRow × Option SalaryRow) :=
  left_join (pfr_subset pfr sal) sal match2

/-- merged_df1 filtered to matches (qbrank.py line 503). -/
def merged_both1 (pfr : List PfrRow) (sal : List SalaryRow) :
    List (PfrRow × Option SalaryRow) :=
  (merged_df1 pfr sal).filter (fun x => x.2.isSome)

/-- merged (qbrank.py line 506): the first-pass matches plus all second-pass
rows. -/
def merged_concat (pfr : List PfrRow) (sal : List SalaryRow) :
    List (PfrRow × Option SalaryRow) :=
  merged_both1 pfr sal ++ merged_df2 pfr sal

/-- Embeds the module-level two-pass merge of notebooks/qbrank.py (lines
472-513): the one_to_one validations of the two validated merges, the
fallback pass, the concatenation, and the final asserts that no left_only
rows remain and that the match counts reconcile. Returns the combined table
only when every check passes. -/
def notebook_merge (pfr : List PfrRow) (sal : List SalaryRow) :
    Except String (List (PfrRow × Option SalaryRow)) :=
  if ¬ ((pfr.map (fun a => (a.last_name, a.mascot, a.season))).Nodup ∧
        (sal.map (fun b => (b.last_name, b.team, b.season))).Nodup) then
    .error "MergeError"
  else if ¬ ((pfr.map (fun a => (a.player, a.season, a.tm))).Nodup ∧
        (left_only pfr sal).Nodup) then
    .error "MergeError"
  else if ((merged_concat pfr sal).filter (fun x => x.2.isNone)).length ≠ 0 then
    .error "AssertionError"
  else if ((merged_concat pfr sal).filter (fun x => x.2.isSome)).length ≠
      ((merged_df1 pfr sal).filter (fun x => x.2.isNone)).length +
        (merged_both1 pfr sal).length then
    .error "AssertionError"
  else .ok (merged_concat pfr sal)

end Notebook

/-- Every left row of a left join is the first component of at least one
result row. -/
theorem left_join_covers {α β : Type} (l : List α) (r : List β)
    (p : α → β → Bool) (a : α) (ha : a ∈ l) :
    ∃ o, (a, o) ∈ Notebook.left_join l r p := by
  unfold Notebook.left_join
  rcases hm : r.filter (p a) with _ | ⟨b, bs⟩
  · exact ⟨none, List.mem_flatMap.mpr ⟨a, ha, by rw [hm]; simp⟩⟩
  · refine ⟨some b, List.mem_flatMap.mpr ⟨a, ha, ?_⟩⟩
    rw [hm]
    exact List.mem_map.mpr ⟨b, List.mem_cons_self b bs, rfl⟩

/-- C2: whenever the two-pass notebook merge returns a table, every base row
whose team label disagrees with its (person, season) match in the salary
source still ends up in the output matched, with the salary columns
populated (an attached salary row), recovered by the fallback pass. -/
theorem notebook_merge_fallback (pfr : List Notebook.PfrRow)
    (sal : List Notebook.SalaryRow)
    (merged : List (Notebook.PfrRow × Option Notebook.SalaryRow))
    (b : Notebook.PfrRow) (s : Notebook.SalaryRow)
    (hok : Notebook.notebook_merge pfr sal = .ok merged)
    (hb : b ∈ pfr) (hs : s ∈ sal)
    (hname : s.player_name = b.player) (hseason : s.season = b.season)
    (hteam : s.team ≠ b.mascot) :
    ∃ x ∈ merged, x.1 = b ∧ x.2.isSome = true := by
  unfold Notebook.notebook_merge at hok
  split_ifs at hok with h1 h2 h3 h4
  obtain rfl := Except.ok.inj hok
  have hfilt : (Notebook.merged_concat pfr sal).filter (fun x => x.2.isNone) = [] :=
    List.length_eq_zero.mp (not_not.mp h3)
  have hnone : ∀ x ∈ Notebook.merged_concat pfr sal, x.2.isSome = true := by
    intro x hx
    by_contra hxs
    have hxnone : x.2.isNone = true := by
      cases hx2 : x.2
      · rfl
      · rw [hx2] at hxs
        exact absurd rfl hxs
    have hxf : x ∈ (Notebook.merged_concat pfr sal).filter (fun x => x.2.isNone) :=
      List.mem_filter.mpr ⟨hx, hxnone⟩
    rw [hfilt] at hxf
    exact absurd hxf (List.not_mem_nil x)
  obtain ⟨o, ho⟩ := left_join_covers pfr sal Notebook.match1 b hb
  cases o with
  | some v =>
    have hmem : ((b, some v) : Notebook.PfrRow × Option Notebook.SalaryRow) ∈
        Notebook.merged_concat pfr sal :=
      List.mem_append.mpr (Or.inl (List.mem_filter.mpr ⟨ho, rfl⟩))
    exact ⟨(b, some v), hmem, rfl, rfl⟩
  | none =>
    have htrip : (b.player, b.season, b.tm) ∈ Notebook.left_only pfr sal :=
      List.mem_map.mpr ⟨(b, none), List.mem_filter.mpr ⟨ho, rfl⟩, rfl⟩
    have hbsub : b ∈ Notebook.pfr_subset pfr sal := by
      refine List.mem_filter.mpr ⟨hb, ?_⟩
      simpa using htrip
    obtain ⟨o2, ho2⟩ := left_join_covers (Notebook.pfr_subset pfr sal) sal
      Notebook.match2 b hbsub
    have hmem : ((b, o2) : Notebook.PfrRow × Option Notebook.SalaryRow) ∈
        Notebook.merged_concat pfr sal :=
      List.mem_append.mpr (Or.inr ho2)
    exact ⟨(b, o2), hmem, rfl, hnone _ hmem⟩

/-- Witness for C2: one base row whose mascot label Patriots disagrees with
the salary team label Pats, matched by the fallback pass on the full name
and season. -/
theorem notebook_merge_fallback_witness :
    ∃ x ∈ [((⟨"Tom Brady", "Brady", "Patriots", "NE", 2020⟩ : Notebook.PfrRow),
          some (⟨"Tom Brady", "Brady", "Pats", 2020⟩ : Notebook.SalaryRow))],
      x.1 = (⟨"Tom Brady", "Brady", "Patriots", "NE", 2020⟩ : Notebook.PfrRow) ∧
        x.2.isSome = true :=
  notebook_merge_fallback
    [⟨"Tom Brady", "Brady", "Patriots", "NE", 2020⟩]
    [⟨"Tom Brady", "Brady", "Pats", 2020⟩] _
    ⟨"Tom Brady", "Brady", "Patriots", "NE", 2020⟩
    ⟨"Tom Brady", "Brady", "Pats", 2020⟩
    rfl (by simp) (by simp) rfl rfl (by decide)
